import Mathlib

/-!
Verification of the record-reconciliation and aggregation pipeline of the
employee/session dashboard.

The embedding models, from the source:
  * the JavaScript value conventions the code relies on (string truthiness,
    `a || b` defaulting, template-literal interpolation of `undefined`,
    `toLowerCase`, `trim`, `split(' ')`, substring `includes`);
  * the `Map`-based aggregation pass `aggregatedStats` (seeding from the
    roster, per-session name resolution, three-way status classification,
    counter updates, latest-session tracking);
  * the bounded pagination loop `fetchAllPages` (page size 1000, safety cap,
    error propagation), modelled over an abstract page source
    `Nat → Except E (List R)`;
  * the roster retrieval policy `getEmployeeRoster` with its fallback
    deduplication of session rows.

Machine state that the claims do not touch (console logging, React state,
rendering) is omitted; all functions are pure and executable.
-/

/-! ## JavaScript value helpers -/

/-- Truthiness of an optional string field: `undefined`/`null` and the empty
string are falsy, every other string is truthy. -/
def truthy : Option String → Bool
  | some s => !s.isEmpty
  | none => false

/-- `a || b` on optional string fields: the JS logical-or returns the left
operand when it is truthy, otherwise the right operand. -/
def jsOr2 (a b : Option String) : Option String :=
  if truthy a then a else b

/-- `a || d` where the default `d` is a string literal: returns the value of
`a` when truthy, else the default. -/
def jsD (a : Option String) (d : String) : String :=
  match a with
  | some s => if s.isEmpty then d else s
  | none => d

/-- Template-literal interpolation of a possibly-undefined field:
interpolating `undefined` in a JS template string yields the literal text
"undefined". -/
def optTmpl : Option String → String
  | some s => s
  | none => "undefined"

/-- `x || ''`: the string value of an optional field, empty when absent. -/
def jsStr (a : Option String) : String := a.getD ""

/-- ASCII lower-casing, modelling `String.prototype.toLowerCase` on the
status labels and name keys that occur in the data. -/
def jsToLower (s : String) : String := ⟨s.data.map Char.toLower⟩

/-- Whitespace recognizer used by the model of `String.prototype.trim`. -/
def isWsChar (c : Char) : Bool :=
  c == ' ' || c == '\t' || c == '\n' || c == '\r'

/-- `String.prototype.trim`: drop whitespace from both ends. -/
def jsTrim (s : String) : String :=
  ⟨((s.data.dropWhile isWsChar).reverse.dropWhile isWsChar).reverse⟩

/-- Substring test on character lists, modelling `String.prototype.includes`:
`pat` occurs contiguously inside the list. -/
def hasSubList (pat : List Char) : List Char → Bool
  | [] => pat.isEmpty
  | c :: t => pat.isPrefixOf (c :: t) || hasSubList pat t

/-- `s.includes(pat)`. -/
def containsSub (s pat : String) : Bool := hasSubList pat.data s.data

/-- `name.split(' ')` on character lists: split on every single space,
keeping empty fragments, never returning an empty list. -/
def splitChars : List Char → List (List Char)
  | [] => [[]]
  | c :: t =>
    let r := splitChars t
    if c == ' ' then [] :: r
    else
      match r with
      | h :: rt => (c :: h) :: rt
      | [] => [[c]]

/-- `name.split(' ')` as strings. -/
def jsSplitSpace (s : String) : List String :=
  (splitChars s.data).map (fun l => ⟨l⟩)

/-! ## Data model (from `types.ts`) -/

/-- The nested `employee_manager` sub-record carried by a joined session row. -/
structure EmpRef where
  first_name : Option String := none
  last_name : Option String := none
  full_name : Option String := none
  program : Option String := none
  avatar_url : Option String := none
deriving DecidableEq

/-- A session row as consumed by the aggregation pass.  Identifiers are
modelled as strings; `session_date` is the parsed date as a timestamp. -/
structure Session where
  id : String := ""
  created_at : Option String := none
  session_date : Int := 0
  employee_name : Option String := none
  status : Option String := none
  program : Option String := none
  program_name : Option String := none
  account_name : Option String := none
  employee_id : Option String := none
  employee_manager : Option EmpRef := none
deriving DecidableEq

/-- An employee record (roster row or fallback-extracted record).  All
attribute fields are independently optional, as in the remote schema. -/
structure Employee where
  id : String := ""
  first_name : Option String := none
  last_name : Option String := none
  full_name : Option String := none
  name : Option String := none
  employee_name : Option String := none
  display_name : Option String := none
  program : Option String := none
  program_name : Option String := none
  account_name : Option String := none
  company : Option String := none
  department : Option String := none
  email : Option String := none
  company_email : Option String := none
  created_at : Option String := none
  avatar_url : Option String := none
deriving DecidableEq

/-- One aggregated per-employee stat record. -/
structure Stat where
  id : String
  name : String
  program : String
  avatar_url : Option String := none
  completed : Nat
  noshow : Nat
  scheduled : Nat
  total : Nat
  latestSession : Option Int
deriving DecidableEq

/-- The three mutually exclusive status buckets. -/
inductive SClass where
  | noshow
  | completed
  | scheduled
deriving DecidableEq

/-! ## Insertion-ordered string-keyed map (JS `Map`) -/

/-- Lookup in an insertion-ordered association list (JS `Map.get`). -/
def mapLookup {α : Type} : List (String × α) → String → Option α
  | [], _ => none
  | (k, v) :: t, key => if k == key then some v else mapLookup t key

/-- `Map.set`: replace in place when the key exists, append otherwise. -/
def mapSet {α : Type} : List (String × α) → String → α → List (String × α)
  | [], key, v => [(key, v)]
  | (k, w) :: t, key, v =>
    if k == key then (key, v) :: t else (k, w) :: mapSet t key v

/-- The key sequence of a map. -/
def mapKeys {α : Type} (m : List (String × α)) : List String :=
  m.map Prod.fst

/-! ## Aggregator (`aggregatedStats` in the dashboard component) -/

/-- Roster-seeding display name:
`emp.full_name || emp.employee_name || emp.name || 'Unknown'`. -/
def rosterName (e : Employee) : String :=
  jsD (jsOr2 (jsOr2 e.full_name e.employee_name) e.name) "Unknown"

/-- Per-session display-name resolution:
`emp?.full_name || emp?.first_name ? `${emp.first_name} ${emp.last_name || ''}`.trim() : (session.employee_name || 'Unknown Employee')`.
Note that `||` binds tighter than `?:`, so a truthy `full_name` alone also
selects the template branch, which interpolates the absent `first_name`. -/
def sessName (s : Session) : String :=
  match s.employee_manager with
  | none => jsD s.employee_name "Unknown Employee"
  | some emp =>
    if truthy emp.full_name || truthy emp.first_name then
      jsTrim (optTmpl emp.first_name ++ " " ++ jsStr emp.last_name)
    else jsD s.employee_name "Unknown Employee"

/-- Status classification of one session:
no-show when the lower-cased status contains "no show", "noshow" or
"late cancel"; else completed when it contains "completed" or is empty with a
past session date; else scheduled. -/
def classify (now : Int) (s : Session) : SClass :=
  let statusRaw := jsToLower (jsD s.status "")
  if containsSub statusRaw "no show" || containsSub statusRaw "noshow"
      || containsSub statusRaw "late cancel" then .noshow
  else if containsSub statusRaw "completed"
      || (statusRaw == "" && decide (s.session_date < now)) then .completed
  else .scheduled

/-- Stat record seeded from one roster employee (all counters zero). -/
def seedStat (e : Employee) : Stat :=
  { id := e.id
    name := rosterName e
    program := jsD (jsOr2 e.program e.program_name) "Unassigned"
    avatar_url := e.avatar_url
    completed := 0, noshow := 0, scheduled := 0, total := 0
    latestSession := none }

/-- Stat record created on the fly for a session whose employee is absent
from the roster (`session.employee_id || session.id` as placeholder id). -/
def freshStat (s : Session) (name : String) : Stat :=
  { id := jsD s.employee_id s.id
    name := name
    program := jsD (jsOr2 s.program s.program_name) "Unassigned"
    avatar_url := s.employee_manager.bind (fun m => m.avatar_url)
    completed := 0, noshow := 0, scheduled := 0, total := 0
    latestSession := none }

/-- Counter/latest-session update applied to the stat record of a session's
employee: `total += 1`, then exactly one bucket counter `+= 1` according to
the classification, then the latest-session maximum. -/
def bumpStat (now : Int) (s : Session) (e : Stat) : Stat :=
  let e1 := { e with total := e.total + 1 }
  let e2 :=
    match classify now s with
    | .noshow => { e1 with noshow := e1.noshow + 1 }
    | .completed => { e1 with completed := e1.completed + 1 }
    | .scheduled => { e1 with scheduled := e1.scheduled + 1 }
  { e2 with
    latestSession :=
      match e2.latestSession with
      | none => some s.session_date
      | some d => if s.session_date > d then some s.session_date else some d }

/-- The stats map seeded from the roster, keyed by the lower-cased name. -/
def seedMap (employees : List Employee) : List (String × Stat) :=
  employees.foldl
    (fun m e => mapSet m (jsToLower (rosterName e)) (seedStat e)) []

/-- Processing of one session: resolve the name key, create the entry when
missing, then bump its counters. -/
def processSession (now : Int) (m : List (String × Stat)) (s : Session) :
    List (String × Stat) :=
  let name := sessName s
  let key := jsToLower name
  let m1 :=
    match mapLookup m key with
    | some _ => m
    | none => mapSet m key (freshStat s name)
  match mapLookup m1 key with
  | some e => mapSet m1 key (bumpStat now s e)
  | none => m1

/-- The full aggregation pass: seed from the roster, process every session,
return the map's values in insertion order. -/
def aggregate (now : Int) (sessions : List Session)
    (employees : List Employee) : List Stat :=
  (sessions.foldl (processSession now) (seedMap employees)).map Prod.snd

/-! ## Paginated fetcher (`fetchAllPages` in the data-fetching module)

A source models the remote query after the select shape, filters and order
have been applied: it maps a page index to either that page's rows or the
query failure.  The loop issues requests strictly sequentially; the second
component of the result counts the requests issued. -/

/-- The fixed page size of the ranged queries. -/
def pageSize : Nat := 1000

/-- One state of the `while (hasMore)` loop: issue the request for `page`,
throw the raw error object on failure, append a non-empty page, continue
while the page was full, and break unconditionally once `page`, after its
increment, exceeds 50. -/
def fetchGo {E R : Type} (src : Nat → Except E (List R)) (page : Nat)
    (allData : List R) (reqs : Nat) : Except E (List R) × Nat :=
  match src page with
  | .error e => (.error e, reqs + 1)
  | .ok data =>
    let allData' := if 0 < data.length then allData ++ data else allData
    if page + 1 > 50 then (.ok allData', reqs + 1)
    else if 0 < data.length ∧ pageSize ≤ data.length then
      fetchGo src (page + 1) allData' (reqs + 1)
    else (.ok allData', reqs + 1)
termination_by 51 - page
decreasing_by omega

/-- The whole paginated fetch, starting at page 0 with no accumulated rows
and no requests issued. -/
def fetchAllPages {E R : Type} (src : Nat → Except E (List R)) :
    Except E (List R) × Nat :=
  fetchGo src 0 [] 0

/-! ## Roster retrieval (`getEmployeeRoster` in the data-fetching module) -/

/-- A raw `session_tracking` row as read by the fallback roster extraction,
including the capitalized alternate field names the code probes. -/
structure SessRow where
  employee_id : Option String := none
  employee_name : Option String := none
  program : Option String := none
  program_name : Option String := none
  Program : Option String := none
  Program_Name : Option String := none
  account_name : Option String := none
  Account_Name : Option String := none
  department : Option String := none
  Department : Option String := none
  email : Option String := none
  Email : Option String := none
  email_address : Option String := none
  company_email : Option String := none
  Company_Email : Option String := none
  created_at : Option String := none
deriving DecidableEq

/-- The employee-name value of a fallback row (`s.employee_name`); rows with
a falsy name are skipped before this is used. -/
def rowName (s : SessRow) : String := jsD s.employee_name ""

/-- Deduplication key: `s.employee_id || name`. -/
def rowKey (s : SessRow) : String := jsD s.employee_id (rowName s)

/-- The program value stored on an extracted employee record:
`s.program || s.program_name || s.Program || s.Program_Name`. -/
def progStore (s : SessRow) : Option String :=
  jsOr2 (jsOr2 (jsOr2 s.program s.program_name) s.Program) s.Program_Name

/-- The program value tested by the overwrite condition `hasMoreInfo`:
`s.program || s.program_name` (the capitalized aliases are not probed here). -/
def progTrig (s : SessRow) : Option String :=
  jsOr2 s.program s.program_name

/-- The employee record synthesized from one fallback row; `fresh i` stands
for the random placeholder id generated when `employee_id` is absent
(`i` is the row's position). -/
def mkEmployee (fresh : Nat → String) (i : Nat) (s : SessRow) : Employee :=
  let name := rowName s
  { id := jsD s.employee_id (fresh i)
    full_name := some name
    first_name := some ((jsSplitSpace name).headD "")
    last_name := some (String.intercalate " " ((jsSplitSpace name).drop 1))
    program := progStore s
    account_name := jsOr2 s.account_name s.Account_Name
    company := jsOr2 s.account_name s.Account_Name
    department := jsOr2 (jsOr2 s.department s.Department) s.account_name
    email := jsOr2 (jsOr2 (jsOr2 (jsOr2 s.email s.Email) s.email_address)
      s.company_email) s.Company_Email
    company_email := jsOr2 (jsOr2 s.company_email s.Company_Email) s.email
    created_at := s.created_at }

/-- One step of the fallback deduplication: skip rows with a falsy name,
insert unseen keys, and overwrite an existing record exactly when it lacks a
program value and the row's `program || program_name` is truthy. -/
def rosterStep (fresh : Nat → String) (m : List (String × Employee))
    (p : Nat × SessRow) : List (String × Employee) :=
  if truthy p.2.employee_name then
    match mapLookup m (rowKey p.2) with
    | none => mapSet m (rowKey p.2) (mkEmployee fresh p.1 p.2)
    | some ex =>
      if !truthy ex.program && truthy (progTrig p.2) then
        mapSet m (rowKey p.2) (mkEmployee fresh p.1 p.2)
      else m
  else m

/-- The deduplication map built from an indexed row list. -/
def stepFold (fresh : Nat → String) (ps : List (Nat × SessRow)) :
    List (String × Employee) :=
  ps.foldl (rosterStep fresh) []

/-- The fallback roster map over the fetched session rows. -/
def rosterMap (fresh : Nat → String) (rows : List SessRow) :
    List (String × Employee) :=
  stepFold fresh rows.enum

/-- `Array.from(uniqueEmployees.values())`: the extracted employee records in
insertion order. -/
def rosterFallbackDedup (rows : List SessRow) (fresh : Nat → String) :
    List Employee :=
  (rosterMap fresh rows).map Prod.snd

/-- The roster retrieval policy: try the dedicated roster table silently
(an error leaves the roster empty); return its rows unchanged when
non-empty; otherwise fetch the session table (failures propagate) and
deduplicate.  An empty fallback result is returned as the empty list. -/
def getEmployeeRoster {E : Type} (rosterSrc : Nat → Except E (List Employee))
    (sessionSrc : Nat → Except E (List SessRow)) (fresh : Nat → String) :
    Except E (List Employee) :=
  let rosterData : List Employee :=
    match (fetchAllPages rosterSrc).1 with
    | .ok l => l
    | .error _ => []
  if 0 < rosterData.length then .ok rosterData
  else
    match (fetchAllPages sessionSrc).1 with
    | .error e => .error e
    | .ok rows => .ok (rosterFallbackDedup rows fresh)

/-! ## Quick sanity checks of the embedding on concrete values -/

example : sessName { employee_name := some "Alice Johnson" } = "Alice Johnson" := by decide

example :
    sessName { employee_manager := some { first_name := some "Alice", last_name := some "Johnson" } }
      = "Alice Johnson" := by decide

example : classify 100 { status := some "Client No Show", session_date := 0 } = .noshow := by decide

example : classify 100 { status := some "Completed", session_date := 200 } = .completed := by decide

example : classify 100 { status := none, session_date := 200 } = .scheduled := by decide

example :
    fetchAllPages (fun _ => Except.ok ([] : List Nat) : Nat → Except Unit (List Nat))
      = (Except.ok [], 1) := by
  simp [fetchAllPages, fetchGo]

example :
    fetchAllPages (fun _ => (Except.error "boom" : Except String (List Nat)))
      = (Except.error "boom", 1) := by
  simp [fetchAllPages, fetchGo]

example :
    (rosterFallbackDedup
      [{ employee_id := some "42", employee_name := some "Ann" },
       { employee_id := some "42", employee_name := some "Ann", program := some "Coaching" }]
      (fun _ => "gen")).map (fun e => (e.id, e.program)) = [("42", some "Coaching")] := by decide

/-! ## Association-map lemmas -/

theorem mapLookup_set_self {α : Type} (m : List (String × α)) (k : String)
    (v : α) : mapLookup (mapSet m k v) k = some v := by
  induction m with
  | nil => simp [mapSet, mapLookup]
  | cons p t ih =>
    obtain ⟨k', w⟩ := p
    by_cases h : k' = k
    · simp [mapSet, mapLookup, h]
    · simp [mapSet, mapLookup, h, ih]

theorem mapKeys_cons {α : Type} (a : String) (b : α) (t : List (String × α)) :
    mapKeys ((a, b) :: t) = a :: mapKeys t := rfl

theorem mapLookup_set_ne {α : Type} (m : List (String × α)) {k k' : String}
    (v : α) (h : k' ≠ k) : mapLookup (mapSet m k' v) k = mapLookup m k := by
  induction m with
  | nil => simp [mapSet, mapLookup, h]
  | cons p t ih =>
    obtain ⟨k'', w⟩ := p
    by_cases h2 : k'' = k'
    · subst h2
      simp [mapSet, mapLookup, h]
    · by_cases h3 : k'' = k
      · subst h3
        simp [mapSet, mapLookup, h2]
      · simp [mapSet, mapLookup, h2, h3, ih]

theorem mem_mapSet {α : Type} {m : List (String × α)} {k : String} {v : α}
    {p : String × α} (hp : p ∈ mapSet m k v) : p = (k, v) ∨ p ∈ m := by
  induction m with
  | nil => simpa [mapSet] using hp
  | cons q t ih =>
    obtain ⟨k', w⟩ := q
    by_cases h : k' = k
    · simp only [mapSet, h, beq_self_eq_true, if_true] at hp
      rcases List.mem_cons.mp hp with h1 | h1
      · exact Or.inl h1
      · exact Or.inr (List.mem_cons_of_mem _ h1)
    · simp only [mapSet, beq_iff_eq, h, if_false] at hp
      rcases List.mem_cons.mp hp with h1 | h1
      · exact Or.inr (h1 ▸ List.mem_cons_self _ _)
      · rcases ih h1 with h2 | h2
        · exact Or.inl h2
        · exact Or.inr (List.mem_cons_of_mem _ h2)

theorem mapLookup_mem {α : Type} {m : List (String × α)} {k : String} {v : α}
    (h : mapLookup m k = some v) : (k, v) ∈ m := by
  induction m with
  | nil => simp [mapLookup] at h
  | cons q t ih =>
    obtain ⟨k', w⟩ := q
    by_cases h2 : k' = k
    · subst h2
      simp only [mapLookup, beq_self_eq_true, if_true, Option.some.injEq] at h
      exact h ▸ List.mem_cons_self _ _
    · simp only [mapLookup, beq_iff_eq, h2, if_false] at h
      exact List.mem_cons_of_mem _ (ih h)

theorem mapLookup_none_not_mem {α : Type} {m : List (String × α)} {k : String}
    (h : mapLookup m k = none) : k ∉ mapKeys m := by
  induction m with
  | nil => simp [mapKeys]
  | cons q t ih =>
    obtain ⟨k', w⟩ := q
    by_cases h2 : k' = k
    · simp [mapLookup, h2] at h
    · simp only [mapLookup, beq_iff_eq, h2, if_false] at h
      rw [mapKeys_cons]
      intro hc
      rcases List.mem_cons.mp hc with h3 | h3
      · exact h2 h3.symm
      · exact ih h h3

theorem mapKeys_set_of_some {α : Type} {m : List (String × α)} {k : String}
    {w : α} (h : mapLookup m k = some w) (v : α) :
    mapKeys (mapSet m k v) = mapKeys m := by
  induction m with
  | nil => simp [mapLookup] at h
  | cons q t ih =>
    obtain ⟨k', w'⟩ := q
    by_cases h2 : k' = k
    · subst h2
      simp [mapSet, mapKeys_cons]
    · simp only [mapLookup, beq_iff_eq, h2, if_false] at h
      simp [mapSet, h2, mapKeys_cons, ih h]

theorem mapKeys_set_of_none {α : Type} {m : List (String × α)} {k : String}
    (h : mapLookup m k = none) (v : α) :
    mapKeys (mapSet m k v) = mapKeys m ++ [k] := by
  induction m with
  | nil => simp [mapSet, mapKeys]
  | cons q t ih =>
    obtain ⟨k', w'⟩ := q
    by_cases h2 : k' = k
    · simp [mapLookup, h2] at h
    · simp only [mapLookup, beq_iff_eq, h2, if_false] at h
      simp [mapSet, h2, mapKeys_cons, ih h]

theorem nodup_mapKeys_set {α : Type} {m : List (String × α)} (k : String)
    (v : α) (h : (mapKeys m).Nodup) : (mapKeys (mapSet m k v)).Nodup := by
  cases hL : mapLookup m k with
  | some w => rw [mapKeys_set_of_some hL]; exact h
  | none =>
    rw [mapKeys_set_of_none hL]
    rw [List.nodup_append_comm]
    exact List.nodup_cons.mpr ⟨mapLookup_none_not_mem hL, h⟩

theorem mapLookup_isSome_set {α : Type} {m : List (String × α)} {k : String}
    (k' : String) (v : α) (h : (mapLookup m k).isSome) :
    (mapLookup (mapSet m k' v) k).isSome := by
  by_cases h2 : k' = k
  · subst h2; simp [mapLookup_set_self]
  · rw [mapLookup_set_ne m v h2]; exact h

/-! ## C8, C9 — status classification -/

/-- C8: every session whose status text contains "late cancel" as a
case-insensitive substring is classified no-show — and hence never
completed — for every current moment `now`, in particular when the session
date is strictly before `now`. -/
theorem classify_late_cancel_noshow (now : Int) (s : Session)
    (h : containsSub (jsToLower (jsD s.status "")) "late cancel" = true) :
    classify now s = SClass.noshow ∧ classify now s ≠ SClass.completed := by
  have h1 : classify now s = SClass.noshow := by
    unfold classify
    simp [h]
  exact ⟨h1, by simp [h1]⟩

/-- Witness for C8 at status "Late Cancel" with a past session date
(session date 0, current moment 100). -/
theorem classify_late_cancel_noshow_witness :
    containsSub (jsToLower (jsD (some "Late Cancel") ""))  "late cancel" = true
    ∧ (classify 100 { status := some "Late Cancel", session_date := 0 } = SClass.noshow
       ∧ classify 100 { status := some "Late Cancel", session_date := 0 } ≠ SClass.completed) :=
  ⟨by decide,
   classify_late_cancel_noshow 100 { status := some "Late Cancel", session_date := 0 } (by decide)⟩

/-- C9: every session with an empty status text is classified completed when
its session date is strictly before the current moment, and scheduled
otherwise. -/
theorem classify_empty_status (now : Int) (s : Session)
    (h : jsD s.status "" = "") :
    classify now s
      = if s.session_date < now then SClass.completed else SClass.scheduled := by
  unfold classify
  rw [h]
  by_cases hd : s.session_date < now <;> simp [hd, jsToLower, containsSub, hasSubList]

/-- Witness for C9: an absent status with session date 0 is completed at
current moment 100, and scheduled at current moment -100. -/
theorem classify_empty_status_witness :
    jsD (none : Option String) "" = ""
    ∧ classify 100 { status := none, session_date := 0 } = SClass.completed
    ∧ classify (-100) { status := none, session_date := 0 } = SClass.scheduled := by
  refine ⟨rfl, ?_, ?_⟩
  · have := classify_empty_status 100 { status := none, session_date := 0 } rfl
    simpa using this
  · have := classify_empty_status (-100) { status := none, session_date := 0 } rfl
    simpa using this

/-! ## C3 — per-session employee-name resolution -/

/-- The session exhibiting the name-resolution defect: its nested employee
reference carries only a full name. -/
def fullNameOnlySession : Session :=
  { id := "s-1"
    session_date := 0
    employee_name := some "Flat Alice"
    employee_manager := some { full_name := some "Alice Johnson" } }

/-- C3 (code bug): a nested employee reference carrying only a full name does
not yield that full name.  Because `||` binds tighter than `?:`, the truthy
`full_name` selects the template branch, which interpolates the absent
`first_name` as the literal text "undefined"; the resolved display name is
therefore "undefined", not "Alice Johnson" (and not the flat
`employee_name` either). -/
theorem sessName_full_name_only_undefined :
    sessName fullNameOnlySession = "undefined"
    ∧ sessName fullNameOnlySession ≠ "Alice Johnson" := by
  constructor <;> decide

/-! ## C1 — bucket partition and per-session accounting -/

theorem bumpStat_total (now : Int) (s : Session) (e : Stat) :
    (bumpStat now s e).total = e.total + 1 := by
  cases h : classify now s <;> simp [bumpStat, h]

theorem bumpStat_completed (now : Int) (s : Session) (e : Stat) :
    (bumpStat now s e).completed
      = e.completed + (if classify now s = SClass.completed then 1 else 0) := by
  cases h : classify now s <;> simp [bumpStat, h]

theorem bumpStat_noshow (now : Int) (s : Session) (e : Stat) :
    (bumpStat now s e).noshow
      = e.noshow + (if classify now s = SClass.noshow then 1 else 0) := by
  cases h : classify now s <;> simp [bumpStat, h]

theorem bumpStat_scheduled (now : Int) (s : Session) (e : Stat) :
    (bumpStat now s e).scheduled
      = e.scheduled + (if classify now s = SClass.scheduled then 1 else 0) := by
  cases h : classify now s <;> simp [bumpStat, h]

theorem bumpStat_name (now : Int) (s : Session) (e : Stat) :
    (bumpStat now s e).name = e.name := by
  cases h : classify now s <;> simp [bumpStat, h]

theorem bumpStat_partition (now : Int) (s : Session) (e : Stat)
    (he : e.completed + e.noshow + e.scheduled = e.total) :
    (bumpStat now s e).completed + (bumpStat now s e).noshow
      + (bumpStat now s e).scheduled = (bumpStat now s e).total := by
  rw [bumpStat_total, bumpStat_completed, bumpStat_noshow, bumpStat_scheduled]
  cases h : classify now s <;> simp [h] <;> omega

/-- Sum of a counter over all records of a stats map. -/
def statSum (f : Stat → Nat) (m : List (String × Stat)) : Nat :=
  (m.map (fun p => f p.2)).sum

theorem statSum_cons (f : Stat → Nat) (a : String) (b : Stat)
    (t : List (String × Stat)) :
    statSum f ((a, b) :: t) = f b + statSum f t := by
  simp [statSum]

theorem statSum_set_some (f : Stat → Nat) {m : List (String × Stat)}
    {k : String} {e : Stat} (h : mapLookup m k = some e) (v : Stat) :
    statSum f (mapSet m k v) + f e = statSum f m + f v := by
  induction m with
  | nil => simp [mapLookup] at h
  | cons q t ih =>
    obtain ⟨k', w⟩ := q
    by_cases h2 : k' = k
    · subst h2
      simp only [mapLookup, beq_self_eq_true, if_true, Option.some.injEq] at h
      subst h
      simp only [mapSet, beq_self_eq_true, if_true, statSum_cons]
      omega
    · simp only [mapLookup, beq_iff_eq, h2, if_false] at h
      simp only [mapSet, beq_iff_eq, h2, if_false, statSum_cons]
      have := ih h
      omega

theorem statSum_set_none (f : Stat → Nat) {m : List (String × Stat)}
    {k : String} (h : mapLookup m k = none) (v : Stat) :
    statSum f (mapSet m k v) = statSum f m + f v := by
  induction m with
  | nil => simp [mapSet, statSum]
  | cons q t ih =>
    obtain ⟨k', w⟩ := q
    by_cases h2 : k' = k
    · simp [mapLookup, h2] at h
    · simp only [mapLookup, beq_iff_eq, h2, if_false] at h
      simp only [mapSet, beq_iff_eq, h2, if_false, statSum_cons]
      have := ih h
      omega

theorem statSum_process (now : Int) (s : Session) (f : Stat → Nat) (d : Nat)
    (hfresh : ∀ name, f (freshStat s name) = 0)
    (hbump : ∀ e, f (bumpStat now s e) = f e + d)
    (m : List (String × Stat)) :
    statSum f (processSession now m s) = statSum f m + d := by
  unfold processSession
  cases hL : mapLookup m (jsToLower (sessName s)) with
  | some e =>
    simp only [hL]
    have h1 := statSum_set_some f hL (bumpStat now s e)
    have h2 := hbump e
    omega
  | none =>
    have h1 : mapLookup (mapSet m (jsToLower (sessName s)) (freshStat s (sessName s)))
        (jsToLower (sessName s)) = some (freshStat s (sessName s)) :=
      mapLookup_set_self _ _ _
    simp only [hL, h1]
    have h2 := statSum_set_some f h1 (bumpStat now s (freshStat s (sessName s)))
    have h3 := statSum_set_none f hL (freshStat s (sessName s))
    have h4 := hbump (freshStat s (sessName s))
    have h5 := hfresh (sessName s)
    omega

theorem statSum_foldl (now : Int) (f : Stat → Nat) (g : Session → Nat)
    (hfresh : ∀ s name, f (freshStat s name) = 0)
    (hbump : ∀ s e, f (bumpStat now s e) = f e + g s) :
    ∀ (sessions : List Session) (m : List (String × Stat)),
      statSum f (sessions.foldl (processSession now) m)
        = statSum f m + (sessions.map g).sum := by
  intro sessions
  induction sessions with
  | nil => intro m; simp
  | cons s t ih =>
    intro m
    simp only [List.foldl_cons, List.map_cons, List.sum_cons]
    rw [ih, statSum_process now s f (g s) (hfresh s) (hbump s)]
    omega

theorem statSum_eq_zero {f : Stat → Nat} {m : List (String × Stat)}
    (h : ∀ p ∈ m, f p.2 = 0) : statSum f m = 0 := by
  induction m with
  | nil => rfl
  | cons a t ih =>
    obtain ⟨k, v⟩ := a
    rw [statSum_cons, h (k, v) (List.mem_cons_self _ _),
      ih fun p hp => h p (List.mem_cons_of_mem _ hp)]

/-- Every record of a seeded map arises from `seedStat` (given that the start
map has the same shape). -/
theorem seedMap_all {P : String × Stat → Prop}
    (hP : ∀ e, P (jsToLower (rosterName e), seedStat e)) :
    ∀ (es : List Employee) (m : List (String × Stat)), (∀ q ∈ m, P q) →
    ∀ q ∈ es.foldl
      (fun m e => mapSet m (jsToLower (rosterName e)) (seedStat e)) m, P q := by
  intro es
  induction es with
  | nil => intro m hm q hq; exact hm q hq
  | cons e t ih =>
    intro m hm q hq
    refine ih _ ?_ q hq
    intro r hr
    rcases mem_mapSet hr with h1 | h1
    · exact h1 ▸ hP e
    · exact hm r h1

/-- The per-record partition invariant: completed + noshow + scheduled =
total for every record of the map. -/
def statsInv (m : List (String × Stat)) : Prop :=
  ∀ p ∈ m, p.2.completed + p.2.noshow + p.2.scheduled = p.2.total

theorem statsInv_process (now : Int) (s : Session) {m : List (String × Stat)}
    (hm : statsInv m) : statsInv (processSession now m s) := by
  unfold processSession
  cases hL : mapLookup m (jsToLower (sessName s)) with
  | some e =>
    simp only [hL]
    intro p hp
    rcases mem_mapSet hp with h1 | h1
    · subst h1
      exact bumpStat_partition now s e (hm _ (mapLookup_mem hL))
    · exact hm p h1
  | none =>
    have h1 : mapLookup (mapSet m (jsToLower (sessName s)) (freshStat s (sessName s)))
        (jsToLower (sessName s)) = some (freshStat s (sessName s)) :=
      mapLookup_set_self _ _ _
    simp only [hL, h1]
    intro p hp
    rcases mem_mapSet hp with h2 | h2
    · subst h2
      exact bumpStat_partition now s _ (by simp [freshStat])
    · rcases mem_mapSet h2 with h3 | h3
      · subst h3
        simp [freshStat]
      · exact hm p h3

theorem statsInv_foldl (now : Int) :
    ∀ (sessions : List Session) (m : List (String × Stat)), statsInv m →
    statsInv (sessions.foldl (processSession now) m) := by
  intro sessions
  induction sessions with
  | nil => intro m hm; exact hm
  | cons s t ih => intro m hm; exact ih _ (statsInv_process now s hm)

theorem countP_eq_sum_ite {α : Type} (p : α → Bool) (l : List α) :
    l.countP p = (l.map (fun a => if p a then 1 else 0)).sum := by
  induction l with
  | nil => simp
  | cons a t ih =>
    by_cases h : p a
    · simp [List.countP_cons, h, ih]
      omega
    · simp [List.countP_cons, h, ih]

theorem sum_map_one {α : Type} (l : List α) :
    (l.map (fun _ => 1)).sum = l.length := by
  induction l with
  | nil => rfl
  | cons a t ih => simp [ih]; omega

/-- C1: in every aggregation run, each session increments exactly one of the
three bucket counters of exactly one stat record — globally, the totals sum
to the number of sessions and each bucket column sums to the number of
sessions classified into that bucket — and every output record satisfies
completed + noshow + scheduled = total. -/
theorem aggregate_bucket_partition (now : Int) (sessions : List Session)
    (employees : List Employee) :
    (∀ st ∈ aggregate now sessions employees,
        st.completed + st.noshow + st.scheduled = st.total)
    ∧ ((aggregate now sessions employees).map (fun st => st.total)).sum
        = sessions.length
    ∧ ((aggregate now sessions employees).map (fun st => st.completed)).sum
        = sessions.countP (fun s => decide (classify now s = SClass.completed))
    ∧ ((aggregate now sessions employees).map (fun st => st.noshow)).sum
        = sessions.countP (fun s => decide (classify now s = SClass.noshow))
    ∧ ((aggregate now sessions employees).map (fun st => st.scheduled)).sum
        = sessions.countP (fun s => decide (classify now s = SClass.scheduled)) := by
  have hseed0 : ∀ q ∈ seedMap employees,
      q.2.completed = 0 ∧ q.2.noshow = 0 ∧ q.2.scheduled = 0 ∧ q.2.total = 0 := by
    intro q hq
    exact @seedMap_all
      (fun q => q.2.completed = 0 ∧ q.2.noshow = 0 ∧ q.2.scheduled = 0 ∧ q.2.total = 0)
      (fun e => by simp [seedStat]) employees [] (by simp) q hq
  have hsum : ∀ f : Stat → Nat,
      ((aggregate now sessions employees).map (fun st => f st)).sum
        = statSum f (sessions.foldl (processSession now) (seedMap employees)) := by
    intro f
    simp [aggregate, statSum, List.map_map]
    rfl
  have hseedSum : ∀ f : Stat → Nat, (∀ q ∈ seedMap employees, f q.2 = 0) →
      statSum f (seedMap employees) = 0 := fun f hf => statSum_eq_zero hf
  refine ⟨?_, ?_, ?_, ?_, ?_⟩
  · intro st hst
    rcases List.mem_map.mp hst with ⟨p, hp, hps⟩
    have hinv : statsInv (sessions.foldl (processSession now) (seedMap employees)) := by
      refine statsInv_foldl now sessions (seedMap employees) ?_
      intro p hp
      have := hseed0 p hp
      omega
    exact hps ▸ hinv p hp
  · rw [hsum]
    rw [statSum_foldl now (fun st => st.total) (fun _ => 1)
      (fun s name => rfl) (fun s e => bumpStat_total now s e) sessions (seedMap employees)]
    rw [hseedSum _ (fun q hq => (hseed0 q hq).2.2.2), sum_map_one]
    omega
  · rw [hsum]
    rw [statSum_foldl now (fun st => st.completed)
      (fun s => if classify now s = SClass.completed then 1 else 0)
      (fun s name => rfl) (fun s e => bumpStat_completed now s e) sessions (seedMap employees)]
    rw [hseedSum _ (fun q hq => (hseed0 q hq).1), countP_eq_sum_ite]
    simp
  · rw [hsum]
    rw [statSum_foldl now (fun st => st.noshow)
      (fun s => if classify now s = SClass.noshow then 1 else 0)
      (fun s name => rfl) (fun s e => bumpStat_noshow now s e) sessions (seedMap employees)]
    rw [hseedSum _ (fun q hq => (hseed0 q hq).2.1), countP_eq_sum_ite]
    simp
  · rw [hsum]
    rw [statSum_foldl now (fun st => st.scheduled)
      (fun s => if classify now s = SClass.scheduled then 1 else 0)
      (fun s name => rfl) (fun s e => bumpStat_scheduled now s e) sessions (seedMap employees)]
    rw [hseedSum _ (fun q hq => (hseed0 q hq).2.2.1), countP_eq_sum_ite]
    simp

/-! ## C4 — roster employees with zero matching sessions -/

/-- Key/name coherence: every record is stored under the lower-cased form of
its own display name. -/
def statNameKeyInv (m : List (String × Stat)) : Prop :=
  ∀ p ∈ m, jsToLower p.2.name = p.1

theorem seedMap_nodup (es : List Employee) :
    ∀ (m : List (String × Stat)), (mapKeys m).Nodup →
    (mapKeys (es.foldl
      (fun m e => mapSet m (jsToLower (rosterName e)) (seedStat e)) m)).Nodup := by
  induction es with
  | nil => exact fun m h => h
  | cons e t ih => exact fun m h => ih _ (nodup_mapKeys_set _ _ h)

theorem seedMap_lookup_isSome (es : List Employee) :
    ∀ (m : List (String × Stat)) (e : Employee),
    (e ∈ es ∨ (mapLookup m (jsToLower (rosterName e))).isSome) →
    (mapLookup (es.foldl
      (fun m e => mapSet m (jsToLower (rosterName e)) (seedStat e)) m)
      (jsToLower (rosterName e))).isSome := by
  induction es with
  | nil =>
    intro m e he
    rcases he with h | h
    · simp at h
    · exact h
  | cons e' t ih =>
    intro m e he
    rcases he with h | h
    · rcases List.mem_cons.mp h with h1 | h1
      · subst h1
        refine ih _ e (Or.inr ?_)
        simp [mapLookup_set_self]
      · exact ih _ e (Or.inl h1)
    · exact ih _ e (Or.inr (mapLookup_isSome_set _ _ h))

theorem processSession_lookup_ne (now : Int) (s : Session)
    {m : List (String × Stat)} {k : String}
    (hk : jsToLower (sessName s) ≠ k) :
    mapLookup (processSession now m s) k = mapLookup m k := by
  unfold processSession
  cases hL : mapLookup m (jsToLower (sessName s)) with
  | some e =>
    simp only [hL]
    exact mapLookup_set_ne m _ hk
  | none =>
    have h1 : mapLookup (mapSet m (jsToLower (sessName s)) (freshStat s (sessName s)))
        (jsToLower (sessName s)) = some (freshStat s (sessName s)) :=
      mapLookup_set_self _ _ _
    simp only [hL, h1]
    rw [mapLookup_set_ne _ _ hk, mapLookup_set_ne _ _ hk]

theorem foldl_lookup_ne (now : Int) (k : String) :
    ∀ (sessions : List Session) (m : List (String × Stat)),
    (∀ s ∈ sessions, jsToLower (sessName s) ≠ k) →
    mapLookup (sessions.foldl (processSession now) m) k = mapLookup m k := by
  intro sessions
  induction sessions with
  | nil => exact fun m _ => rfl
  | cons s t ih =>
    intro m hs
    simp only [List.foldl_cons]
    rw [ih _ fun s' hs' => hs s' (List.mem_cons_of_mem _ hs'),
      processSession_lookup_ne now s (hs s (List.mem_cons_self _ _))]

theorem processSession_nodup (now : Int) (s : Session)
    {m : List (String × Stat)} (h : (mapKeys m).Nodup) :
    (mapKeys (processSession now m s)).Nodup := by
  unfold processSession
  cases hL : mapLookup m (jsToLower (sessName s)) with
  | some e =>
    simp only [hL]
    exact nodup_mapKeys_set _ _ h
  | none =>
    have h1 : mapLookup (mapSet m (jsToLower (sessName s)) (freshStat s (sessName s)))
        (jsToLower (sessName s)) = some (freshStat s (sessName s)) :=
      mapLookup_set_self _ _ _
    simp only [hL, h1]
    exact nodup_mapKeys_set _ _ (nodup_mapKeys_set _ _ h)

theorem processSession_nameKey (now : Int) (s : Session)
    {m : List (String × Stat)} (h : statNameKeyInv m) :
    statNameKeyInv (processSession now m s) := by
  unfold processSession
  cases hL : mapLookup m (jsToLower (sessName s)) with
  | some e =>
    simp only [hL]
    intro p hp
    rcases mem_mapSet hp with h1 | h1
    · subst h1
      simp only [bumpStat_name]
      exact h _ (mapLookup_mem hL)
    · exact h p h1
  | none =>
    have h1 : mapLookup (mapSet m (jsToLower (sessName s)) (freshStat s (sessName s)))
        (jsToLower (sessName s)) = some (freshStat s (sessName s)) :=
      mapLookup_set_self _ _ _
    simp only [hL, h1]
    intro p hp
    rcases mem_mapSet hp with h2 | h2
    · subst h2
      simp [bumpStat_name, freshStat]
    · rcases mem_mapSet h2 with h3 | h3
      · subst h3
        simp [freshStat]
      · exact h p h3

theorem foldl_nodup (now : Int) :
    ∀ (sessions : List Session) (m : List (String × Stat)),
    (mapKeys m).Nodup →
    (mapKeys (sessions.foldl (processSession now) m)).Nodup := by
  intro sessions
  induction sessions with
  | nil => exact fun m h => h
  | cons s t ih => exact fun m h => ih _ (processSession_nodup now s h)

theorem foldl_nameKey (now : Int) :
    ∀ (sessions : List Session) (m : List (String × Stat)),
    statNameKeyInv m →
    statNameKeyInv (sessions.foldl (processSession now) m) := by
  intro sessions
  induction sessions with
  | nil => exact fun m h => h
  | cons s t ih => exact fun m h => ih _ (processSession_nameKey now s h)

theorem values_filter_key_nil {t : List (String × Stat)} {k : String}
    (hinv : statNameKeyInv t) (hk : k ∉ mapKeys t) :
    (t.map Prod.snd).filter (fun st => jsToLower st.name == k) = [] := by
  induction t with
  | nil => rfl
  | cons q r ih =>
    obtain ⟨k', w⟩ := q
    have h1 : jsToLower w.name = k' := hinv _ (List.mem_cons_self _ _)
    have h2 : k' ≠ k := by
      intro hc
      exact hk (by simp [mapKeys_cons, hc])
    have h3 : k ∉ mapKeys r := fun hc => hk (by simp [mapKeys_cons, hc])
    simp only [List.map_cons, List.filter_cons]
    rw [if_neg (by simp [h1, h2])]
    exact ih (fun p hp => hinv p (List.mem_cons_of_mem _ hp)) h3

theorem values_filter_key {m : List (String × Stat)} {k : String} {v : Stat}
    (hnd : (mapKeys m).Nodup) (hinv : statNameKeyInv m)
    (h : mapLookup m k = some v) :
    (m.map Prod.snd).filter (fun st => jsToLower st.name == k) = [v] := by
  induction m with
  | nil => simp [mapLookup] at h
  | cons q t ih =>
    obtain ⟨k', w⟩ := q
    have hw : jsToLower w.name = k' := hinv _ (List.mem_cons_self _ _)
    have hnd' : k' ∉ mapKeys t ∧ (mapKeys t).Nodup := by
      rw [mapKeys_cons] at hnd
      exact List.nodup_cons.mp hnd
    by_cases h2 : k' = k
    · subst h2
      simp only [mapLookup, beq_self_eq_true, if_true, Option.some.injEq] at h
      subst h
      simp only [List.map_cons, List.filter_cons]
      rw [if_pos (by simp [hw])]
      rw [values_filter_key_nil (fun p hp => hinv p (List.mem_cons_of_mem _ hp)) hnd'.1]
    · simp only [mapLookup, beq_iff_eq, h2, if_false] at h
      simp only [List.map_cons, List.filter_cons]
      rw [if_neg (by simp [hw, h2])]
      exact ih hnd'.2 (fun p hp => hinv p (List.mem_cons_of_mem _ hp)) h

/-- C4: a roster employee none of whose sessions resolve to its name key is
represented by exactly one stat record in the aggregated output, and every
record under that key has all four counts zero. -/
theorem aggregate_roster_zero_sessions (now : Int) (employees : List Employee)
    (sessions : List Session) (e : Employee) (he : e ∈ employees)
    (hs : ∀ s ∈ sessions, jsToLower (sessName s) ≠ jsToLower (rosterName e)) :
    ((aggregate now sessions employees).filter
        (fun st => jsToLower st.name == jsToLower (rosterName e))).length = 1
    ∧ ∀ st ∈ aggregate now sessions employees,
        jsToLower st.name = jsToLower (rosterName e) →
        st.completed = 0 ∧ st.noshow = 0 ∧ st.scheduled = 0 ∧ st.total = 0 := by
  have hseedSome : (mapLookup (seedMap employees) (jsToLower (rosterName e))).isSome :=
    seedMap_lookup_isSome employees [] e (Or.inl he)
  obtain ⟨v0, hv0⟩ := Option.isSome_iff_exists.mp hseedSome
  have hM : mapLookup (sessions.foldl (processSession now) (seedMap employees))
      (jsToLower (rosterName e)) = some v0 := by
    rw [foldl_lookup_ne now _ sessions (seedMap employees) hs, hv0]
  have hzero : v0.completed = 0 ∧ v0.noshow = 0 ∧ v0.scheduled = 0 ∧ v0.total = 0 := by
    have hmem := mapLookup_mem hv0
    exact @seedMap_all
      (fun q => q.2.completed = 0 ∧ q.2.noshow = 0 ∧ q.2.scheduled = 0 ∧ q.2.total = 0)
      (fun e' => by simp [seedStat]) employees [] (by simp) _ hmem
  have hnd : (mapKeys (sessions.foldl (processSession now) (seedMap employees))).Nodup :=
    foldl_nodup now sessions _ (seedMap_nodup employees [] (by simp [mapKeys]))
  have hinv : statNameKeyInv (sessions.foldl (processSession now) (seedMap employees)) := by
    refine foldl_nameKey now sessions _ ?_
    exact @seedMap_all (fun q => jsToLower q.2.name = q.1)
      (fun e' => by simp [seedStat]) employees [] (by simp)
  have hfilter := values_filter_key hnd hinv hM
  have hagg : aggregate now sessions employees
      = (sessions.foldl (processSession now) (seedMap employees)).map Prod.snd := rfl
  constructor
  · rw [hagg, hfilter]
    rfl
  · intro st hst hname
    have hstf : st ∈ (sessions.foldl (processSession now) (seedMap employees)).map
        Prod.snd := by rw [hagg] at hst; exact hst
    have : st ∈ ((sessions.foldl (processSession now) (seedMap employees)).map
        Prod.snd).filter (fun st => jsToLower st.name == jsToLower (rosterName e)) :=
      List.mem_filter.mpr ⟨hstf, by simp [hname]⟩
    rw [hfilter] at this
    have := List.mem_singleton.mp this
    subst this
    exact hzero

/-- Witness for C4: roster employee "Bob" with one session that resolves to
"Alice" — the output has exactly one record under "bob", with all counts
zero. -/
theorem aggregate_roster_zero_sessions_witness :
    ({ id := "e1", full_name := some "Bob" } : Employee) ∈
        [({ id := "e1", full_name := some "Bob" } : Employee)]
    ∧ (∀ s ∈ [({ employee_name := some "Alice", status := some "Completed" } : Session)],
        jsToLower (sessName s)
          ≠ jsToLower (rosterName { id := "e1", full_name := some "Bob" }))
    ∧ ((aggregate 100 [{ employee_name := some "Alice", status := some "Completed" }]
          [{ id := "e1", full_name := some "Bob" }]).filter
        (fun st => jsToLower st.name
          == jsToLower (rosterName { id := "e1", full_name := some "Bob" }))).length = 1
    ∧ ∀ st ∈ aggregate 100 [{ employee_name := some "Alice", status := some "Completed" }]
          [{ id := "e1", full_name := some "Bob" }],
        jsToLower st.name = jsToLower (rosterName { id := "e1", full_name := some "Bob" }) →
        st.completed = 0 ∧ st.noshow = 0 ∧ st.scheduled = 0 ∧ st.total = 0 := by
  have h := aggregate_roster_zero_sessions 100
    [{ id := "e1", full_name := some "Bob" }]
    [{ employee_name := some "Alice", status := some "Completed" }]
    { id := "e1", full_name := some "Bob" } (by decide) (by decide)
  exact ⟨by decide, by decide, h.1, h.2⟩

/-! ## C6 — the 1000/1000/400 pagination scenario -/

/-- C6: for any source — hence independently of whatever filter produced
it — whose first three pages hold 1000, 1000 and 400 rows, the fetch issues
exactly 3 page requests and returns the 2400 rows concatenated in arrival
order, stopping because the third page was short. -/
theorem fetchAllPages_three_pages {E R : Type} (src : Nat → Except E (List R))
    (r1 r2 r3 : List R)
    (h0 : src 0 = Except.ok r1) (h1 : src 1 = Except.ok r2)
    (h2 : src 2 = Except.ok r3)
    (l1 : r1.length = 1000) (l2 : r2.length = 1000) (l3 : r3.length = 400) :
    fetchAllPages src = (Except.ok (r1 ++ r2 ++ r3), 3) := by
  unfold fetchAllPages
  rw [fetchGo, h0]
  simp only [l1, pageSize]
  norm_num
  rw [fetchGo, h1]
  simp only [l2, pageSize]
  norm_num
  rw [fetchGo, h2]
  simp only [l3, pageSize]
  norm_num

/-- Witness source for C6: 1000 rows, then 1000, then 400, then nothing. -/
def threePageSrc : Nat → Except Unit (List Nat) := fun p =>
  if p = 0 then Except.ok (List.replicate 1000 0)
  else if p = 1 then Except.ok (List.replicate 1000 1)
  else if p = 2 then Except.ok (List.replicate 400 2)
  else Except.ok []

/-- Witness for C6 at the concrete three-page source. -/
theorem fetchAllPages_three_pages_witness :
    threePageSrc 0 = Except.ok (List.replicate 1000 0)
    ∧ (List.replicate 1000 (0 : Nat)).length = 1000
    ∧ (List.replicate 400 (2 : Nat)).length = 400
    ∧ fetchAllPages threePageSrc
      = (Except.ok (List.replicate 1000 0 ++ List.replicate 1000 1
          ++ List.replicate 400 2), 3) := by
  refine ⟨rfl, List.length_replicate _ _, List.length_replicate _ _, ?_⟩
  exact fetchAllPages_three_pages threePageSrc _ _ _ rfl rfl rfl
    (List.length_replicate _ _) (List.length_replicate _ _) (List.length_replicate _ _)

/-! ## C7 — error propagation -/

theorem fetchGo_error {E R : Type} (src : Nat → Except E (List R)) (e : E)
    (k : Nat) (hk : k ≤ 50)
    (hfull : ∀ p, p < k → ∃ rows, src p = Except.ok rows
      ∧ pageSize ≤ rows.length ∧ 0 < rows.length)
    (herr : src k = Except.error e) :
    ∀ (d page : Nat), page + d = k → ∀ (acc : List R) (reqs : Nat),
    fetchGo src page acc reqs = (Except.error e, reqs + d + 1) := by
  intro d
  induction d with
  | zero =>
    intro page hpage acc reqs
    have : page = k := by omega
    subst this
    rw [fetchGo, herr]
  | succ d ih =>
    intro page hpage acc reqs
    obtain ⟨rows, hrows, hlen, hpos⟩ := hfull page (by omega)
    rw [fetchGo, hrows]
    simp only [if_pos hpos]
    rw [if_neg (by omega), if_pos ⟨hpos, hlen⟩]
    rw [ih (page + 1) (by omega)]
    congr 1
    omega

/-- C7: when the first `k` pages are full and the request for page `k`
fails, the whole fetch aborts — no partial row list is returned — and the
result carries the original failure object unchanged, so structured fields
on it (such as an error code) are preserved for the caller. -/
theorem fetchAllPages_error_propagation {E R : Type}
    (src : Nat → Except E (List R)) (k : Nat) (e : E) (hk : k ≤ 50)
    (hfull : ∀ p, p < k → ∃ rows, src p = Except.ok rows
      ∧ rows.length = pageSize)
    (herr : src k = Except.error e) :
    fetchAllPages src = (Except.error e, k + 1) := by
  have h := fetchGo_error src e k hk
    (fun p hp => by
      obtain ⟨rows, h1, h2⟩ := hfull p hp
      exact ⟨rows, h1, le_of_eq h2.symm, by rw [h2]; simp [pageSize]⟩)
    herr k 0 (by omega) [] 0
  simpa [fetchAllPages] using h

/-- Witness source for C7: a full first page, then a failure carrying the
structured error value "E503". -/
def errPageSrc : Nat → Except String (List Nat) := fun p =>
  if p = 0 then Except.ok (List.replicate 1000 0) else Except.error "E503"

/-- Witness for C7 at the concrete failing source. -/
theorem fetchAllPages_error_propagation_witness :
    (1 : Nat) ≤ 50
    ∧ errPageSrc 1 = Except.error "E503"
    ∧ fetchAllPages errPageSrc = (Except.error "E503", 2) := by
  refine ⟨by omega, rfl, ?_⟩
  exact fetchAllPages_error_propagation errPageSrc 1 "E503" (by omega)
    (fun p hp => by
      have : p = 0 := by omega
      subst this
      exact ⟨List.replicate 1000 0, rfl, List.length_replicate _ _⟩)
    rfl

/-! ## C2 — safety cap: the loop issues up to 51 requests, not 50

The loop increments `page` before checking `page > 50`, so pages 0..50 —
51 requests, hence up to 51,000 rows — are issued before the cap breaks. -/

/-- A source whose every page is full: the cap alone stops the loop. -/
def fullPageSrc : Nat → Except Unit (List Nat) :=
  fun _ => Except.ok (List.replicate pageSize 0)

theorem fetchGo_fullPageSrc_count :
    ∀ (n page : Nat), page + n = 51 → page ≤ 50 →
    ∀ (acc : List Nat) (reqs : Nat),
    (fetchGo fullPageSrc page acc reqs).2 = reqs + n := by
  intro n
  induction n with
  | zero => intro page h1 h2; omega
  | succ n ih =>
    intro page h1 h2 acc reqs
    rw [fetchGo]
    show (let allData' := if 0 < (List.replicate pageSize (0 : Nat)).length
        then acc ++ List.replicate pageSize 0 else acc
      if page + 1 > 50 then (Except.ok allData', reqs + 1)
      else if 0 < (List.replicate pageSize (0 : Nat)).length
          ∧ pageSize ≤ (List.replicate pageSize (0 : Nat)).length then
        fetchGo fullPageSrc (page + 1) allData' (reqs + 1)
      else (Except.ok allData', reqs + 1)).2 = reqs + (n + 1)
    rw [List.length_replicate]
    by_cases hp : page = 50
    · subst hp
      rw [if_pos (by omega)]
      simp only
      omega
    · rw [if_neg (by omega), if_pos ⟨by simp [pageSize], le_refl _⟩]
      rw [ih (page + 1) (by omega) (by omega)]
      omega

/-- Counterexample to C2: on a source whose every page is full, the fetch
issues 51 page requests — more than the claimed bound of 50 (and can hence
return up to 51,000 rows, not 50,000). -/
theorem fetchAllPages_cap_51_requests :
    (fetchAllPages fullPageSrc).2 = 51 ∧ ¬ (fetchAllPages fullPageSrc).2 ≤ 50 := by
  have h := fetchGo_fullPageSrc_count 51 0 rfl (by omega) [] 0
  constructor
  · simpa [fetchAllPages] using h
  · simp only [fetchAllPages] at *
    omega

theorem fetchGo_count_bound {E R : Type} (src : Nat → Except E (List R)) :
    ∀ (n page : Nat), page + n = 51 → page ≤ 50 →
    ∀ (acc : List R) (reqs : Nat),
    (fetchGo src page acc reqs).2 ≤ reqs + n := by
  intro n
  induction n with
  | zero => intro page h1 h2; omega
  | succ n ih =>
    intro page h1 h2 acc reqs
    rw [fetchGo]
    cases hsrc : src page with
    | error e => simp
    | ok data =>
      simp only
      by_cases hcap : page + 1 > 50
      · rw [if_pos hcap]
        simp
      · rw [if_neg hcap]
        by_cases hmore : 0 < data.length ∧ pageSize ≤ data.length
        · rw [if_pos hmore]
          have := ih (page + 1) (by omega) (by omega)
            (if 0 < data.length then acc ++ data else acc) (reqs + 1)
          omega
        · rw [if_neg hmore]
          simp

theorem fetchGo_length_bound {E R : Type} (src : Nat → Except E (List R))
    (hb : ∀ p rows, src p = Except.ok rows → rows.length ≤ pageSize) :
    ∀ (n page : Nat), page + n = 51 → page ≤ 50 →
    ∀ (acc : List R) (reqs : Nat) (out : List R),
    (fetchGo src page acc reqs).1 = Except.ok out →
    out.length ≤ acc.length + n * pageSize := by
  intro n
  induction n with
  | zero => intro page h1 h2; omega
  | succ n ih =>
    intro page h1 h2 acc reqs out hout
    rw [fetchGo] at hout
    cases hsrc : src page with
    | error e => rw [hsrc] at hout; simp at hout
    | ok data =>
      rw [hsrc] at hout
      simp only at hout
      have hd : data.length ≤ pageSize := hb page data hsrc
      have hacc : (if 0 < data.length then acc ++ data else acc).length
          ≤ acc.length + pageSize := by
        by_cases hpos : 0 < data.length
        · rw [if_pos hpos]
          simp
          omega
        · rw [if_neg hpos]
          omega
      by_cases hcap : page + 1 > 50
      · rw [if_pos hcap] at hout
        simp only [Except.ok.injEq] at hout
        subst hout
        have hps : pageSize ≤ (n + 1) * pageSize :=
          Nat.le_mul_of_pos_left _ (by omega)
        omega
      · rw [if_neg hcap] at hout
        by_cases hmore : 0 < data.length ∧ pageSize ≤ data.length
        · rw [if_pos hmore] at hout
          have := ih (page + 1) (by omega) (by omega)
            (if 0 < data.length then acc ++ data else acc) (reqs + 1) out hout
          have hmul : (n + 1) * pageSize = n * pageSize + pageSize := by ring
          omega
        · rw [if_neg hmore] at hout
          simp only [Except.ok.injEq] at hout
          subst hout
          have hps : pageSize ≤ (n + 1) * pageSize :=
            Nat.le_mul_of_pos_left _ (by omega)
          omega

/-- C2 (amended): for every source, the fetch is total and issues at most 51
page requests (the cap check runs after the page counter's increment, so
pages 0..50 can all be requested); when every page holds at most `pageSize`
rows, a successful fetch returns at most 51 × 1000 = 51,000 rows. -/
theorem fetchAllPages_request_bound {E R : Type}
    (src : Nat → Except E (List R)) :
    (fetchAllPages src).2 ≤ 51
    ∧ ((∀ p rows, src p = Except.ok rows → rows.length ≤ pageSize) →
        ∀ out, (fetchAllPages src).1 = Except.ok out →
          out.length ≤ 51 * pageSize) := by
  constructor
  · have := fetchGo_count_bound src 51 0 rfl (by omega) [] 0
    simpa [fetchAllPages] using this
  · intro hb out hout
    have := fetchGo_length_bound src hb 51 0 rfl (by omega) [] 0 out
      (by simpa [fetchAllPages] using hout)
    simpa using this

/-- Witness for C2 (amended) at a source that errors after one full page:
both the request bound and the row bound hold at the concrete input. -/
theorem fetchAllPages_request_bound_witness :
    (fetchAllPages errPageSrc).2 ≤ 51
    ∧ (List.replicate 1000 (0 : Nat)).length ≤ 51 * pageSize := by
  obtain ⟨h1, h2⟩ := fetchAllPages_request_bound errPageSrc
  refine ⟨h1, ?_⟩
  rw [List.length_replicate]
  simp [pageSize]

/-! ## C10 — the preferred roster path returns the fetched rows unchanged -/

/-- C10: whenever the preferred roster-table query succeeds with at least one
row, `getEmployeeRoster` returns exactly that row sequence, with no
normalization, name splitting, deduplication or synthesized identifiers. -/
theorem getEmployeeRoster_preferred_identity {E : Type}
    (rosterSrc : Nat → Except E (List Employee))
    (sessionSrc : Nat → Except E (List SessRow)) (fresh : Nat → String)
    (l : List Employee) (hok : (fetchAllPages rosterSrc).1 = Except.ok l)
    (hne : l ≠ []) :
    getEmployeeRoster rosterSrc sessionSrc fresh = Except.ok l := by
  unfold getEmployeeRoster
  rw [hok]
  simp only
  rw [if_pos (List.length_pos.mpr hne)]

/-- Witness sources for C10: a one-row roster table and a session source
that would fail if it were consulted. -/
def oneRowRosterSrc : Nat → Except Unit (List Employee) :=
  fun _ => Except.ok [{ id := "e1", full_name := some "Bob" }]

def failingSessionSrc : Nat → Except Unit (List SessRow) :=
  fun _ => Except.error ()

/-- Witness for C10 at the concrete one-row roster source. -/
theorem getEmployeeRoster_preferred_identity_witness :
    (fetchAllPages oneRowRosterSrc).1
      = Except.ok [{ id := "e1", full_name := some "Bob" }]
    ∧ ([({ id := "e1", full_name := some "Bob" } : Employee)] ≠ [])
    ∧ getEmployeeRoster oneRowRosterSrc failingSessionSrc (fun _ => "gen")
      = Except.ok [{ id := "e1", full_name := some "Bob" }] := by
  have hok : (fetchAllPages oneRowRosterSrc).1
      = Except.ok [{ id := "e1", full_name := some "Bob" }] := by
    simp [fetchAllPages, fetchGo, oneRowRosterSrc, pageSize]
  refine ⟨hok, by simp, ?_⟩
  exact getEmployeeRoster_preferred_identity oneRowRosterSrc failingSessionSrc
    (fun _ => "gen") _ hok (by simp)

/-! ## C5 — fallback roster deduplication -/

theorem truthy_jsOr2 (a b : Option String) :
    truthy (jsOr2 a b) = (truthy a || truthy b) := by
  unfold jsOr2
  cases h : truthy a <;> simp [h]

theorem truthy_progStore_of_trig {s : SessRow}
    (h : truthy (progTrig s) = true) : truthy (progStore s) = true := by
  unfold progStore
  unfold progTrig at h
  simp only [truthy_jsOr2] at h ⊢
  simp [h]

theorem mk_program (fresh : Nat → String) (i : Nat) (s : SessRow) :
    (mkEmployee fresh i s).program = progStore s := rfl

theorem find_append_split {α : Type} (l1 l2 : List α) (f : α → Bool) :
    (l1 ++ l2).find? f
      = match l1.find? f with
        | some x => some x
        | none => l2.find? f := by
  induction l1 with
  | nil => simp
  | cons a t ih =>
    by_cases h : f a = true
    · rw [List.cons_append, List.find?_cons_of_pos _ h, List.find?_cons_of_pos _ h]
    · rw [List.cons_append, List.find?_cons_of_neg _ h, List.find?_cons_of_neg _ h, ih]

/-- Rows of the indexed session list that contribute to key `k`: those with
a truthy employee name whose dedup key is `k`. -/
def keyedRow (k : String) (p : Nat × SessRow) : Bool :=
  truthy p.2.employee_name && (rowKey p.2 == k)

/-- The row whose synthesized record survives for a key group: the first row
outright when it already stores a truthy program; otherwise the first later
row whose `program || program_name` is truthy (after such an overwrite the
stored program is truthy, so no further overwrite happens); otherwise the
first row. -/
def winnerRow : List (Nat × SessRow) → Option (Nat × SessRow)
  | [] => none
  | f :: rest =>
    some (if truthy (progStore f.2) then f
      else (rest.find? (fun q => truthy (progTrig q.2))).getD f)

/-- The record the deduplication holds for key `k`, described declaratively
from the indexed row list. -/
def specLookup (fresh : Nat → String) (rows : List (Nat × SessRow))
    (k : String) : Option Employee :=
  (winnerRow (rows.filter (keyedRow k))).map (fun p => mkEmployee fresh p.1 p.2)

theorem rosterStep_cases (fresh : Nat → String) (m : List (String × Employee))
    (p : Nat × SessRow) :
    rosterStep fresh m p = m
    ∨ (truthy p.2.employee_name = true
       ∧ ∃ v, rosterStep fresh m p = mapSet m (rowKey p.2) v) := by
  unfold rosterStep
  by_cases h : truthy p.2.employee_name = true
  · rw [if_pos h]
    cases hL : mapLookup m (rowKey p.2) with
    | none => exact Or.inr ⟨h, _, rfl⟩
    | some ex =>
      dsimp only
      by_cases hc : (!truthy ex.program && truthy (progTrig p.2)) = true
      · rw [if_pos hc]
        exact Or.inr ⟨h, _, rfl⟩
      · rw [if_neg hc]
        exact Or.inl rfl
  · rw [if_neg h]
    exact Or.inl rfl

theorem rosterStep_of_lookup_none (fresh : Nat → String)
    (m : List (String × Employee)) (p : Nat × SessRow)
    (hname : truthy p.2.employee_name = true)
    (hL : mapLookup m (rowKey p.2) = none) :
    rosterStep fresh m p = mapSet m (rowKey p.2) (mkEmployee fresh p.1 p.2) := by
  unfold rosterStep
  rw [if_pos hname, hL]

theorem rosterStep_of_lookup_overwrite (fresh : Nat → String)
    (m : List (String × Employee)) (p : Nat × SessRow) (ex : Employee)
    (hname : truthy p.2.employee_name = true)
    (hL : mapLookup m (rowKey p.2) = some ex)
    (hex : truthy ex.program = false) (htp : truthy (progTrig p.2) = true) :
    rosterStep fresh m p = mapSet m (rowKey p.2) (mkEmployee fresh p.1 p.2) := by
  unfold rosterStep
  rw [if_pos hname, hL]
  dsimp only
  rw [if_pos (by simp [hex, htp])]

theorem rosterStep_of_lookup_keep (fresh : Nat → String)
    (m : List (String × Employee)) (p : Nat × SessRow) (ex : Employee)
    (hname : truthy p.2.employee_name = true)
    (hL : mapLookup m (rowKey p.2) = some ex)
    (hc : (!truthy ex.program && truthy (progTrig p.2)) = false) :
    rosterStep fresh m p = m := by
  unfold rosterStep
  rw [if_pos hname, hL]
  dsimp only
  rw [if_neg (by simp [hc])]

theorem stepFold_char (fresh : Nat → String) (ps : List (Nat × SessRow)) :
    (mapKeys (stepFold fresh ps)).Nodup
    ∧ ∀ k, mapLookup (stepFold fresh ps) k = specLookup fresh ps k := by
  induction ps using List.reverseRecOn with
  | nil =>
    constructor
    · simp [stepFold, mapKeys]
    · intro k
      simp [stepFold, specLookup, winnerRow, mapLookup]
  | append_singleton ps p ih =>
    obtain ⟨ihN, ihL⟩ := ih
    have hfold : stepFold fresh (ps ++ [p])
        = rosterStep fresh (stepFold fresh ps) p := by
      simp [stepFold, List.foldl_append]
    refine ⟨?_, ?_⟩
    · rw [hfold]
      rcases rosterStep_cases fresh (stepFold fresh ps) p with h | ⟨_, v, h⟩
      · rw [h]
        exact ihN
      · rw [h]
        exact nodup_mapKeys_set _ _ ihN
    · intro k
      rw [hfold]
      by_cases hkey : keyedRow k p = true
      · have hkey' : truthy p.2.employee_name = true ∧ (rowKey p.2 == k) = true := by
          simpa [keyedRow, Bool.and_eq_true] using hkey
        have hname := hkey'.1
        have hkeq : rowKey p.2 = k := by simpa using hkey'.2
        have hfilter : (ps ++ [p]).filter (keyedRow k)
            = ps.filter (keyedRow k) ++ [p] := by
          rw [List.filter_append]
          simp [hkey]
        cases hFlt : ps.filter (keyedRow k) with
        | nil =>
          have hnone : mapLookup (stepFold fresh ps) (rowKey p.2) = none := by
            rw [hkeq, ihL k]
            unfold specLookup
            rw [hFlt]
            rfl
          rw [rosterStep_of_lookup_none fresh _ p hname hnone, hkeq,
            mapLookup_set_self]
          unfold specLookup
          rw [hfilter, hFlt]
          simp [winnerRow]
        | cons f rest =>
          by_cases hsf : truthy (progStore f.2) = true
          · have hsome : mapLookup (stepFold fresh ps) (rowKey p.2)
                = some (mkEmployee fresh f.1 f.2) := by
              rw [hkeq, ihL k]
              unfold specLookup
              rw [hFlt]
              simp [winnerRow, hsf]
            have hkeep := rosterStep_of_lookup_keep fresh _ p _ hname hsome
              (by rw [mk_program, hsf]; rfl)
            rw [hkeep, ihL k]
            unfold specLookup
            rw [hFlt, hfilter, hFlt]
            simp [winnerRow, hsf, List.cons_append]
          · cases hfind : rest.find? (fun q => truthy (progTrig q.2)) with
            | some r =>
              have htr : truthy (progTrig r.2) = true := by
                have := List.find?_some hfind
                simpa using this
              have hsome : mapLookup (stepFold fresh ps) (rowKey p.2)
                  = some (mkEmployee fresh r.1 r.2) := by
                rw [hkeq, ihL k]
                unfold specLookup
                rw [hFlt]
                simp [winnerRow, hsf, hfind]
              have hkeep := rosterStep_of_lookup_keep fresh _ p _ hname hsome
                (by rw [mk_program, truthy_progStore_of_trig htr]; rfl)
              rw [hkeep, ihL k]
              unfold specLookup
              rw [hFlt, hfilter, hFlt]
              simp [winnerRow, hsf, List.cons_append, find_append_split, hfind]
            | none =>
              have hsome : mapLookup (stepFold fresh ps) (rowKey p.2)
                  = some (mkEmployee fresh f.1 f.2) := by
                rw [hkeq, ihL k]
                unfold specLookup
                rw [hFlt]
                simp [winnerRow, hsf, hfind]
              by_cases htp : truthy (progTrig p.2) = true
              · rw [rosterStep_of_lookup_overwrite fresh _ p _ hname hsome
                  (by rw [mk_program]; simpa using hsf) htp, hkeq,
                  mapLookup_set_self]
                unfold specLookup
                rw [hfilter, hFlt]
                simp [winnerRow, hsf, List.cons_append, find_append_split,
                  hfind, htp]
              · have hkeep := rosterStep_of_lookup_keep fresh _ p _ hname hsome
                  (by simp [htp])
                rw [hkeep, ihL k]
                unfold specLookup
                rw [hFlt, hfilter, hFlt]
                simp [winnerRow, hsf, List.cons_append, find_append_split,
                  hfind, htp]
      · have hfilter : (ps ++ [p]).filter (keyedRow k)
            = ps.filter (keyedRow k) := by
          rw [List.filter_append]
          simp [hkey]
        have hspec : specLookup fresh (ps ++ [p]) k = specLookup fresh ps k := by
          unfold specLookup
          rw [hfilter]
        rw [hspec, ← ihL k]
        rcases rosterStep_cases fresh (stepFold fresh ps) p with h | ⟨hname, v, h⟩
        · rw [h]
        · rw [h]
          apply mapLookup_set_ne
          intro hc
          apply hkey
          unfold keyedRow
          rw [hname, hc]
          simp

/-- C5 (amended): in the roster fallback path, session rows are deduplicated
by employee id when present, else by employee name, into one record per key
(the key list of the map is duplicate-free), and the record held for each
key is exactly characterized: the first contributing row wins outright when
the program it stores (`program || program_name || Program || Program_Name`)
is truthy; otherwise the first later row whose `program || program_name` is
truthy — the capitalized aliases do not trigger an overwrite — overwrites
it, and otherwise the first-seen row stands.  In particular two rows sharing
employee id "42" with programs null then "Coaching" yield one record for id
"42" with program "Coaching". -/
theorem rosterFallback_dedup_characterization :
    (∀ (fresh : Nat → String) (rows : List SessRow),
      (mapKeys (rosterMap fresh rows)).Nodup
      ∧ ∀ k, mapLookup (rosterMap fresh rows) k = specLookup fresh rows.enum k)
    ∧ (rosterFallbackDedup
        [{ employee_id := some "42", employee_name := some "Ann" },
         { employee_id := some "42", employee_name := some "Ann",
           program := some "Coaching" }]
        (fun _ => "gen")).map (fun e => (e.id, e.program))
      = [("42", some "Coaching")] := by
  constructor
  · intro fresh rows
    exact stepFold_char fresh rows.enum
  · decide

/-- First counterexample row: key "42", no program under any alias. -/
def capRow1 : SessRow := { employee_id := some "42", employee_name := some "Ann" }

/-- Second counterexample row: same key "42", program value "X" carried only
under the capitalized `Program` alias. -/
def capRow2 : SessRow :=
  { employee_id := some "42", employee_name := some "Ann", Program := some "X" }

/-- Counterexample to C5 as stated: the stored record (from the first row)
lacks a program value, and the later row supplies one — its resolved program
attribute is the truthy "X", which the record written for it would store —
yet no overwrite happens: the final record for key "42" keeps program
`none`, because the overwrite test probes only the lowercase
`program`/`program_name` fields while storage also maps the capitalized
aliases.  The claimed "overwrites if and only if the stored record lacks a
program value and the later row supplies one" is therefore false here. -/
theorem rosterFallback_capital_program_no_overwrite :
    truthy (progStore capRow1) = false
    ∧ truthy (progStore capRow2) = true
    ∧ (mkEmployee (fun _ => "gen") 1 capRow2).program = some "X"
    ∧ (rosterFallbackDedup [capRow1, capRow2] (fun _ => "gen")).map
        (fun e => (e.id, e.program)) = [("42", none)] := by
  refine ⟨by decide, by decide, by decide, by decide⟩
